import Mathlib

/-!
Shallow embedding of the csbench source-amalgamation script
(`scripts/amalgamated.py`).

The script loads eight named text fragments as line lists, extracts the
leading run of `//` comment lines of the header as a preamble, strips
self-inclusion and include-guard marker lines as well as leading/trailing
blank lines from each fragment, and concatenates the results with a single
blank line (`"\n"`) between consecutive fragment cores, writing the joined
text to `csbench_amalgamated.c`.

Lines are modelled as Lean `String`s exactly as produced by Python's
`readlines` (line terminators kept).  Python string primitives used by the
script (`startswith`, substring membership via `in`, `isspace`) are
modelled on the character lists of the strings.  The two `while` loops at
the end of `make_core_contents` index `lines[0]` / `lines[-1]` and hence
raise `IndexError` on an empty list; the embedding makes this partiality
explicit with `Option`, `none` standing for the raised exception.
-/

namespace Csbench

/-- Checks that `n` is a leading segment of `h` (the character-list model
of Python's `str.startswith`). -/
def beginsWith : List Char → List Char → Bool
  | [], _ => true
  | _ :: _, [] => false
  | a :: n, b :: h => a == b && beginsWith n h

/-- Model of Python `s.startswith(pre)`. -/
def pyStartsWith (pre s : String) : Bool :=
  beginsWith pre.toList s.toList

/-- Checks that `n` occurs contiguously somewhere in `h` (the
character-list model of Python's substring test `n in h`). -/
def containsSeq (n : List Char) : List Char → Bool
  | [] => beginsWith n []
  | c :: t => beginsWith n (c :: t) || containsSeq n t

/-- Model of Python `sub in s` (substring containment). -/
def pyContains (sub s : String) : Bool :=
  containsSeq sub.toList s.toList

/-- Model of Python `s.isspace()`: non-empty and all characters are
whitespace. -/
def pyIsSpace (s : String) : Bool :=
  !s.toList.isEmpty && s.toList.all Char.isWhitespace

/-- The comment predicate `lambda it: it.startswith("//")` used by both
the preamble extraction (line 13) and step 1 of `make_core_contents`. -/
def isCommentLine (it : String) : Bool :=
  pyStartsWith "//" it

/-- Line 13: `preample = list(itertools.takewhile(lambda it:
it.startswith("//"), files["csbench.h"]))`, parameterised by the loaded
header lines. -/
def preample (headerLines : List String) : List String :=
  headerLines.takeWhile isCommentLine

/-- Line 16 of `make_core_contents`: drop the maximal leading run of
`//` comment lines. -/
def dropLeadingComments (lines : List String) : List String :=
  lines.dropWhile isCommentLine

/-- The four literal markers removed by lines 17-20. -/
def inclMarker : String := "#include \"csbench.h\""

/-- Include-guard opening marker (line 18). -/
def guardOpenMarker : String := "#ifndef CSBENCH_H"

/-- Include-guard definition marker (line 19). -/
def guardDefMarker : String := "#define CSBENCH_H"

/-- Include-guard closing marker (line 20). -/
def guardCloseMarker : String := "#endif // CSBENCH_H"

/-- Lines 17-20 of `make_core_contents`: four successive `filter` passes
removing every line that contains one of the markers as a substring. -/
def dropMarkerLines (lines : List String) : List String :=
  ((((lines.filter (fun it => !pyContains inclMarker it)).filter
      (fun it => !pyContains guardOpenMarker it)).filter
      (fun it => !pyContains guardDefMarker it)).filter
      (fun it => !pyContains guardCloseMarker it))

/-- Lines 16-20 of `make_core_contents` (the spec's filtering steps 1-4):
comment-run drop followed by the four marker filters. -/
def coreSteps14 (lines : List String) : List String :=
  dropMarkerLines (dropLeadingComments lines)

/-- Lines 21-22: `while lines[0].isspace(): lines = lines[1:]`.
The loop indexes `lines[0]`, so it raises `IndexError` (here `none`) as
soon as the list is empty, in particular when every line is blank or the
input is empty. -/
def trimLeadingBlank (lines : List String) : Option (List String) :=
  if (lines.dropWhile pyIsSpace).isEmpty then none
  else some (lines.dropWhile pyIsSpace)

/-- Lines 23-24: `while lines[-1].isspace(): lines = lines[:-1]`.
Indexes `lines[-1]`, so it raises `IndexError` (here `none`) as soon as
the list is empty. -/
def trimTrailingBlank (lines : List String) : Option (List String) :=
  if ((lines.reverse.dropWhile pyIsSpace).reverse).isEmpty then none
  else some ((lines.reverse.dropWhile pyIsSpace).reverse)

/-- Lines 15-25: `make_core_contents`.  `none` models an uncaught
`IndexError` raised by the blank-trimming loops. -/
def make_core_contents (lines : List String) : Option (List String) :=
  (trimLeadingBlank (coreSteps14 lines)).bind trimTrailingBlank

/-- The eight loaded fragments (the script's `files` dict), fields in the
order of `file_names` (lines 5-7). -/
structure Files where
  csbench_h : List String
  csbench_c : List String
  csbench_plot : List String
  csbench_perf : List String
  csbench_utils : List String
  csbench_run : List String
  csbench_report : List String
  csbench_analyze : List String
deriving DecidableEq

/-- Lines 5-7: the fixed list of input fragment names, in load order. -/
def file_names : List String :=
  ["csbench.h", "csbench.c", "csbench_plot.c", "csbench_perf.c",
   "csbench_utils.c", "csbench_run.c", "csbench_report.c",
   "csbench_analyze.c"]

/-- Lines 27-42: the assembled line sequence.  The eight
`make_core_contents` calls are evaluated in source order (header, run,
analyze, report, utils, plot, perf, main), each able to raise
(`Option`), then spliced after the preamble with a `"\n"` separator
between consecutive cores. -/
def amalgamated_source (fs : Files) : Option (List String) := do
  let ch ← make_core_contents fs.csbench_h
  let crun ← make_core_contents fs.csbench_run
  let canalyze ← make_core_contents fs.csbench_analyze
  let creport ← make_core_contents fs.csbench_report
  let cutils ← make_core_contents fs.csbench_utils
  let cplot ← make_core_contents fs.csbench_plot
  let cperf ← make_core_contents fs.csbench_perf
  let cc ← make_core_contents fs.csbench_c
  pure (preample fs.csbench_h ++ ch ++ ["\n"] ++ crun ++ ["\n"] ++
        canalyze ++ ["\n"] ++ creport ++ ["\n"] ++ cutils ++ ["\n"] ++
        cplot ++ ["\n"] ++ cperf ++ ["\n"] ++ cc)

/-- Line 45: `f.write("".join(amalgamated_source))` — the joined text
that is written on success. -/
def amalgamated_text (fs : Files) : Option String :=
  (amalgamated_source fs).map String.join

/-- The generic shape of the assembly (lines 27-42): preamble, then the
blocks joined with a single `"\n"` separator between consecutive blocks. -/
def joinBlocks : List (List String) → List String
  | [] => []
  | [b] => b
  | b :: b' :: rest => b ++ ["\n"] ++ joinBlocks (b' :: rest)

/-- Assembly of a preamble with an ordered list of filtered blocks. -/
def assemble (p : List String) (blocks : List (List String)) : List String :=
  p ++ joinBlocks blocks

/-- Errors the script can raise: a missing input fragment
(`FileNotFoundError` from `open`, lines 9-11) or the `IndexError` of the
blank-trimming loops (lines 21-24). -/
inductive PyError where
  | notFound (name : String)
  | indexError
deriving DecidableEq

/-- Model of `open(name).readlines()` against an abstract disk `g`
mapping a file name to its lines when the file exists. -/
def loadFile (g : String → Option (List String)) (name : String) :
    Except PyError (List String) :=
  match g name with
  | none => Except.error (PyError.notFound name)
  | some ls => Except.ok ls

/-- Lines 9-11: load all eight fragments, in `file_names` order, aborting
at the first missing one. -/
def loadFiles (g : String → Option (List String)) : Except PyError Files := do
  let h ← loadFile g "csbench.h"
  let c ← loadFile g "csbench.c"
  let plot ← loadFile g "csbench_plot.c"
  let perf ← loadFile g "csbench_perf.c"
  let utils ← loadFile g "csbench_utils.c"
  let run ← loadFile g "csbench_run.c"
  let report ← loadFile g "csbench_report.c"
  let analyze ← loadFile g "csbench_analyze.c"
  pure ⟨h, c, plot, perf, utils, run, report, analyze⟩

/-- The pure part of a run: load everything, then compute the joined
output text (lines 9-42), before any write happens. -/
def runPipeline (g : String → Option (List String)) : Except PyError String :=
  match loadFiles g with
  | Except.error e => Except.error e
  | Except.ok fs =>
      match amalgamated_text fs with
      | none => Except.error PyError.indexError
      | some s => Except.ok s

/-- A whole run (lines 9-45): the list of write effects it performs
(destination name and written text) together with the error that aborted
it, if any.  The destination `csbench_amalgamated.c` is opened for
writing only after all loads and the whole computation succeeded. -/
def runScript (g : String → Option (List String)) :
    List (String × String) × Option PyError :=
  match runPipeline g with
  | Except.ok s => ([("csbench_amalgamated.c", s)], none)
  | Except.error e => ([], some e)

/-- The no-adjacent-blank-lines relation between consecutive lines of the
assembled output. -/
def noAdjBlank (a b : String) : Prop :=
  ¬(pyIsSpace a = true ∧ pyIsSpace b = true)

/-- A well-formed filtered core: non-empty and neither starting nor
ending with a blank line. -/
def GoodBlock (c : List String) : Prop :=
  c ≠ [] ∧ (∀ x ∈ c.head?, pyIsSpace x = false) ∧
    (∀ x ∈ c.getLast?, pyIsSpace x = false)

/-! ### Helper lemmas -/

lemma head?_dropWhile_false {α : Type _} (p : α → Bool) (l : List α) :
    ∀ x ∈ (l.dropWhile p).head?, p x = false := by
  induction l with
  | nil => simp
  | cons a t ih =>
    intro x hx
    rw [List.dropWhile_cons] at hx
    by_cases h : p a = true
    · rw [if_pos h] at hx
      exact ih x hx
    · rw [if_neg h] at hx
      rw [List.head?_cons, Option.mem_def, Option.some.injEq] at hx
      subst hx
      simpa using h

lemma dropWhile_eq_self_of_head {α : Type _} (p : α → Bool) {l : List α}
    (h : ∀ x ∈ l.head?, p x = false) : l.dropWhile p = l := by
  cases l with
  | nil => rfl
  | cons a t =>
    rw [List.dropWhile_cons, if_neg]
    have := h a (by simp)
    simp [this]

lemma head?_eq_of_isPrefix {α : Type _} {l m : List α}
    (h : l <+: m) (hne : l ≠ []) : m.head? = l.head? := by
  obtain ⟨t, rfl⟩ := h
  cases l with
  | nil => exact absurd rfl hne
  | cons a u => simp

lemma pyIsSpace_eq_false_of_comment {s : String}
    (h : isCommentLine s = true) : pyIsSpace s = false := by
  unfold isCommentLine pyStartsWith at h
  have h2 : ("//").toList = ['/', '/'] := rfl
  rw [h2] at h
  unfold pyIsSpace
  cases hs : s.toList with
  | nil =>
    rw [hs] at h
    exact absurd h (by decide)
  | cons c t =>
    rw [hs] at h
    unfold beginsWith at h
    simp only [Bool.and_eq_true] at h
    obtain ⟨h1, -⟩ := h
    have hc : c = '/' := (beq_iff_eq.mp h1).symm
    subst hc
    simp [List.all_cons]

lemma trimLeadingBlank_destruct {l r : List String}
    (h : trimLeadingBlank l = some r) :
    r = l.dropWhile pyIsSpace ∧ r ≠ [] := by
  unfold trimLeadingBlank at h
  by_cases he : (l.dropWhile pyIsSpace).isEmpty
  · rw [if_pos he] at h
    exact absurd h (by simp)
  · rw [if_neg he] at h
    have heq : r = l.dropWhile pyIsSpace := (Option.some.inj h).symm
    refine ⟨heq, ?_⟩
    intro hr
    apply he
    rw [← heq, hr]
    rfl

lemma trimTrailingBlank_destruct {l r : List String}
    (h : trimTrailingBlank l = some r) :
    r = (l.reverse.dropWhile pyIsSpace).reverse ∧ r ≠ [] := by
  unfold trimTrailingBlank at h
  by_cases he : ((l.reverse.dropWhile pyIsSpace).reverse).isEmpty
  · rw [if_pos he] at h
    exact absurd h (by simp)
  · rw [if_neg he] at h
    have heq : r = (l.reverse.dropWhile pyIsSpace).reverse :=
      (Option.some.inj h).symm
    refine ⟨heq, ?_⟩
    intro hr
    apply he
    rw [← heq, hr]
    rfl

lemma make_core_destruct {lines r : List String}
    (h : make_core_contents lines = some r) :
    ∃ m, trimLeadingBlank (coreSteps14 lines) = some m ∧
      trimTrailingBlank m = some r := by
  unfold make_core_contents at h
  cases hm : trimLeadingBlank (coreSteps14 lines) with
  | none => rw [hm] at h; exact absurd h (by simp)
  | some m => rw [hm] at h; exact ⟨m, rfl, h⟩

lemma make_core_good {lines r : List String}
    (h : make_core_contents lines = some r) :
    GoodBlock r ∧ ∀ x ∈ r, x ∈ coreSteps14 lines := by
  obtain ⟨m, hm, hr⟩ := make_core_destruct h
  obtain ⟨hmeq, hmne⟩ := trimLeadingBlank_destruct hm
  obtain ⟨hreq, hrne⟩ := trimTrailingBlank_destruct hr
  have hpre : r <+: m := by
    apply List.reverse_suffix.mp
    rw [hreq, List.reverse_reverse]
    exact List.dropWhile_suffix _
  have hhead : ∀ x ∈ r.head?, pyIsSpace x = false := by
    rw [← head?_eq_of_isPrefix hpre hrne, hmeq]
    exact head?_dropWhile_false _ _
  have hlast : ∀ x ∈ r.getLast?, pyIsSpace x = false := by
    rw [hreq, List.getLast?_reverse]
    exact head?_dropWhile_false _ _
  have hmem : ∀ x ∈ r, x ∈ coreSteps14 lines := by
    intro x hx
    have hxm : x ∈ m := List.Sublist.mem hx hpre.sublist
    have hsuf : m <:+ coreSteps14 lines := hmeq ▸ List.dropWhile_suffix _
    exact List.IsSuffix.mem hxm hsuf
  exact ⟨⟨hrne, hhead, hlast⟩, hmem⟩

lemma markers_false_of_mem_coreSteps14 {lines : List String} {x : String}
    (hx : x ∈ coreSteps14 lines) :
    pyContains inclMarker x = false ∧ pyContains guardOpenMarker x = false ∧
      pyContains guardDefMarker x = false ∧
      pyContains guardCloseMarker x = false := by
  unfold coreSteps14 dropMarkerLines at hx
  simp only [List.mem_filter, Bool.not_eq_true'] at hx
  exact ⟨hx.1.1.1.2, hx.1.1.2, hx.1.2, hx.2⟩

lemma noAdjBlank_of_right {a b : String} (hb : pyIsSpace b = false) :
    noAdjBlank a b := by
  intro hc
  obtain ⟨-, h2⟩ := hc
  rw [hb] at h2
  exact absurd h2 (by decide)

lemma noAdjBlank_of_left {a b : String} (ha : pyIsSpace a = false) :
    noAdjBlank a b := by
  intro hc
  obtain ⟨h1, -⟩ := hc
  rw [ha] at h1
  exact absurd h1 (by decide)

lemma chain'_of_all_nonblank {l : List String}
    (h : ∀ x ∈ l, pyIsSpace x = false) : l.Chain' noAdjBlank := by
  induction l with
  | nil => simp
  | cons a t ih =>
    rw [List.chain'_cons']
    refine ⟨?_, ih fun x hx => h x (List.mem_cons_of_mem _ hx)⟩
    intro y hy
    exact noAdjBlank_of_right
      (h y (List.mem_cons_of_mem _ (List.mem_of_mem_head? hy)))

lemma joinBlocks_chain' :
    ∀ blocks : List (List String),
      (∀ c ∈ blocks, GoodBlock c ∧ List.Chain' noAdjBlank c) →
      List.Chain' noAdjBlank (joinBlocks blocks) ∧
        ∀ x ∈ (joinBlocks blocks).head?, pyIsSpace x = false := by
  intro blocks
  induction blocks with
  | nil => intro _; simp [joinBlocks]
  | cons b rest ih =>
    intro h
    cases rest with
    | nil =>
      obtain ⟨⟨-, hh, -⟩, hc⟩ := h b (by simp)
      exact ⟨by simpa [joinBlocks] using hc, by simpa [joinBlocks] using hh⟩
    | cons b' rest' =>
      obtain ⟨⟨hbne, hbh, hbl⟩, hbc⟩ := h b (by simp)
      have ih' := ih (fun c hc => h c (List.mem_cons_of_mem _ hc))
      simp only [joinBlocks]
      constructor
      · rw [List.append_assoc, List.chain'_append]
        refine ⟨hbc, ?_, ?_⟩
        · rw [List.singleton_append, List.chain'_cons']
          exact ⟨fun y hy => noAdjBlank_of_right (ih'.2 y hy), ih'.1⟩
        · intro x hx y hy
          exact noAdjBlank_of_left (hbl x hx)
      · intro x hx
        have hp : b <+: (b ++ ["\n"] ++ joinBlocks (b' :: rest')) :=
          ⟨["\n"] ++ joinBlocks (b' :: rest'), by rw [List.append_assoc]⟩
        rw [head?_eq_of_isPrefix hp hbne] at hx
        exact hbh x hx

lemma joinBlocks_getLast? :
    ∀ (bs : List (List String)) (b : List String), b ≠ [] →
      (joinBlocks (bs ++ [b])).getLast? = b.getLast? := by
  intro bs
  induction bs with
  | nil => intro b hb; simp [joinBlocks]
  | cons a bs ih =>
    intro b hb
    cases bs with
    | nil =>
      simp only [List.nil_append, List.cons_append, joinBlocks]
      rw [List.append_assoc, List.getLast?_append_of_ne_nil _ (by simp),
        List.getLast?_append_of_ne_nil _ hb]
    | cons a' bs' =>
      have hJ : (joinBlocks (a' :: (bs' ++ [b]))).getLast? = b.getLast? := ih b hb
      have hne : joinBlocks (a' :: (bs' ++ [b])) ≠ [] := by
        intro hnil
        rw [hnil] at hJ
        have hb2 : b.getLast?.isSome := List.getLast?_isSome.mpr hb
        rw [← hJ] at hb2
        exact absurd hb2 (by simp)
      have hne2 : ["\n"] ++ joinBlocks (a' :: (bs' ++ [b])) ≠ [] := by simp
      show (a ++ ["\n"] ++ joinBlocks (a' :: (bs' ++ [b]))).getLast? = b.getLast?
      rw [List.append_assoc, List.getLast?_append_of_ne_nil _ hne2,
        List.getLast?_append_of_ne_nil _ hne]
      exact hJ

lemma amalgamated_source_destruct {fs : Files}
    {c1 c2 c3 c4 c5 c6 c7 c8 out : List String}
    (h1 : make_core_contents fs.csbench_h = some c1)
    (h2 : make_core_contents fs.csbench_run = some c2)
    (h3 : make_core_contents fs.csbench_analyze = some c3)
    (h4 : make_core_contents fs.csbench_report = some c4)
    (h5 : make_core_contents fs.csbench_utils = some c5)
    (h6 : make_core_contents fs.csbench_plot = some c6)
    (h7 : make_core_contents fs.csbench_perf = some c7)
    (h8 : make_core_contents fs.csbench_c = some c8)
    (h : amalgamated_source fs = some out) :
    out = assemble (preample fs.csbench_h) [c1, c2, c3, c4, c5, c6, c7, c8] := by
  unfold amalgamated_source at h
  rw [h1, h2, h3, h4, h5, h6, h7, h8] at h
  simp only [Option.bind_eq_bind, Option.some_bind, Option.pure_def,
    Option.some.injEq] at h
  rw [← h]
  simp [assemble, joinBlocks, List.append_assoc]

lemma pair_infix_append {α : Type _} {a b : α} :
    ∀ {l1 l2 : List α}, [a, b] <:+: (l1 ++ l2) →
      [a, b] <:+: l1 ∨ [a, b] <:+: l2 ∨
        (a ∈ l1.getLast? ∧ b ∈ l2.head?) := by
  intro l1
  induction l1 with
  | nil =>
    intro l2 h
    exact Or.inr (Or.inl (by simpa using h))
  | cons x t1 ih =>
    intro l2 h
    obtain ⟨s, t, hst⟩ := h
    cases s with
    | nil =>
      simp only [List.nil_append, List.cons_append] at hst
      injection hst with ha htail
      cases t1 with
      | nil =>
        right; right
        subst ha
        refine ⟨by simp, ?_⟩
        simp only [List.nil_append] at htail
        rw [← htail]
        simp
      | cons y t1' =>
        simp only [List.cons_append] at htail
        injection htail with hb ht
        left
        exact ⟨[], t1', by simp [ha, hb]⟩
    | cons z s' =>
      simp only [List.cons_append] at hst
      injection hst with hz hrest
      have h' : [a, b] <:+: (t1 ++ l2) := ⟨s', t, hrest⟩
      rcases ih h' with h1 | h2 | ⟨hga, hgb⟩
      · left
        obtain ⟨s2, t2, h12⟩ := h1
        exact ⟨x :: s2, t2, by rw [← h12]; simp⟩
      · right; left
        exact h2
      · right; right
        refine ⟨?_, hgb⟩
        cases t1 with
        | nil => simp at hga
        | cons w t1' =>
          rw [List.getLast?_cons_cons]
          exact hga

lemma joinBlocks_head?_nonblank :
    ∀ blocks : List (List String), (∀ c ∈ blocks, GoodBlock c) →
      ∀ x ∈ (joinBlocks blocks).head?, pyIsSpace x = false := by
  intro blocks
  induction blocks with
  | nil => intro _; simp [joinBlocks]
  | cons b rest ih =>
    intro h
    cases rest with
    | nil =>
      obtain ⟨-, hh, -⟩ := h b (by simp)
      simpa [joinBlocks] using hh
    | cons b' rest' =>
      obtain ⟨hbne, hbh, -⟩ := h b (by simp)
      intro x hx
      simp only [joinBlocks] at hx
      have hp : b <+: (b ++ ["\n"] ++ joinBlocks (b' :: rest')) :=
        ⟨["\n"] ++ joinBlocks (b' :: rest'), by rw [List.append_assoc]⟩
      rw [head?_eq_of_isPrefix hp hbne] at hx
      exact hbh x hx

lemma pair_infix_joinBlocks :
    ∀ blocks : List (List String), (∀ c ∈ blocks, GoodBlock c) →
      ∀ a b : String, [a, b] <:+: joinBlocks blocks →
        pyIsSpace a = true → pyIsSpace b = true →
        ∃ c ∈ blocks, [a, b] <:+: c := by
  intro blocks
  induction blocks with
  | nil =>
    intro _ a b hab _ _
    have := hab.length_le
    simp [joinBlocks] at this
  | cons b0 rest ih =>
    intro h a b hab ha hb
    cases rest with
    | nil =>
      exact ⟨b0, by simp, by simpa [joinBlocks] using hab⟩
    | cons b1 rest' =>
      simp only [joinBlocks] at hab
      rw [List.append_assoc] at hab
      rcases pair_infix_append hab with h1 | h2 | ⟨hga, -⟩
      · exact ⟨b0, by simp, h1⟩
      · rcases pair_infix_append h2 with h3 | h4 | ⟨-, hgb⟩
        · exact absurd h3 (by intro hh; have := hh.length_le; simp at this)
        · obtain ⟨c, hc, hcc⟩ :=
            ih (fun c hc => h c (List.mem_cons_of_mem _ hc)) a b h4 ha hb
          exact ⟨c, List.mem_cons_of_mem _ hc, hcc⟩
        · have hnb := joinBlocks_head?_nonblank (b1 :: rest')
            (fun c hc => h c (List.mem_cons_of_mem _ hc)) b hgb
          exact absurd hb (by simp [hnb])
      · obtain ⟨-, -, hbl⟩ := h b0 (by simp)
        have := hbl a hga
        exact absurd ha (by simp [this])

/-! ### Claim theorems -/

/-- C1: whenever the filtering steps 1-4 of `make_core_contents` leave a
sequence that is empty or consists only of blank lines, the function does
NOT succeed: the leading blank-trimming loop indexes `lines[0]` on an
empty list and raises `IndexError` (modelled as `none`) instead of being
a no-op.  This contradicts the claimed (and spec-required) defensive
property, exhibiting the crash-on-empty fault in the code. -/
theorem make_core_crashes_on_blank_residue (lines : List String)
    (h : (coreSteps14 lines).all pyIsSpace = true) :
    make_core_contents lines = none := by
  have hd : (coreSteps14 lines).dropWhile pyIsSpace = [] :=
    List.dropWhile_eq_nil_iff.mpr (List.all_eq_true.mp h)
  unfold make_core_contents trimLeadingBlank
  rw [hd]
  rfl

/-- C1 witness: a concrete fragment made of a comment banner and a blank
line; steps 1-4 leave only the blank line and the filter crashes. -/
theorem make_core_crashes_on_blank_residue_witness :
    (coreSteps14 ["// banner\n", "\n"]).all pyIsSpace = true ∧
      make_core_contents ["// banner\n", "\n"] = none :=
  ⟨by decide, make_core_crashes_on_blank_residue _ (by decide)⟩

/-- C2 counterexample: on the header of Scenario A the filtered core is
not `["int x;"]` — the guard lines `#ifndef H`, `#define H` and
`#endif // H` do not contain the literal `CSBENCH_H` markers the filter
looks for, so they are kept. -/
theorem scenarioA_as_stated_fails :
    ¬(preample ["// lic", "// lic2", "#ifndef H", "#define H", "int x;",
        "#endif // H"] = ["// lic", "// lic2"] ∧
      make_core_contents ["// lic", "// lic2", "#ifndef H", "#define H",
        "int x;", "#endif // H"] = some ["int x;"]) := by
  decide

/-- C2 amended: on the Scenario A header the preamble is
`["// lic", "// lic2"]` and the filtered core keeps the foreign guard
lines, yielding `["#ifndef H", "#define H", "int x;", "#endif // H"]`
(only lines containing the literal `CSBENCH_H` marker forms are
removed). -/
theorem scenarioA_actual_behavior :
    preample ["// lic", "// lic2", "#ifndef H", "#define H", "int x;",
        "#endif // H"] = ["// lic", "// lic2"] ∧
      make_core_contents ["// lic", "// lic2", "#ifndef H", "#define H",
        "int x;", "#endif // H"] =
        some ["#ifndef H", "#define H", "int x;", "#endif // H"] := by
  decide

/-- C3 counterexample: filtering is not idempotent.  Removing the guard
line of `["#ifndef CSBENCH_H", "// c", "x"]` exposes a new leading
comment line, which only a second pass drops: one pass yields
`["// c", "x"]`, two passes yield `["x"]`. -/
theorem make_core_not_idempotent :
    ¬((make_core_contents ["#ifndef CSBENCH_H", "// c", "x"]).bind
        make_core_contents =
      make_core_contents ["#ifndef CSBENCH_H", "// c", "x"]) := by
  decide

/-- C3 amended: filtering is idempotent on every input whose filtered
core does not begin with a comment line: if `make_core_contents lines`
succeeds with result `r` and `r`'s first line does not start with `//`,
then filtering `r` again returns `r` unchanged. -/
theorem make_core_idempotent_of_no_exposed_comment
    (lines r : List String) (h : make_core_contents lines = some r)
    (hc : ∀ x ∈ r.head?, isCommentLine x = false) :
    make_core_contents r = some r := by
  obtain ⟨⟨hrne, hhead, hlast⟩, hmem⟩ := make_core_good h
  have s1 : dropLeadingComments r = r := dropWhile_eq_self_of_head _ hc
  have hmarks := fun x hx => markers_false_of_mem_coreSteps14 (hmem x hx)
  have f1 : r.filter (fun it => !pyContains inclMarker it) = r :=
    List.filter_eq_self.mpr (fun a ha => by simp [(hmarks a ha).1])
  have f2 : r.filter (fun it => !pyContains guardOpenMarker it) = r :=
    List.filter_eq_self.mpr (fun a ha => by simp [(hmarks a ha).2.1])
  have f3 : r.filter (fun it => !pyContains guardDefMarker it) = r :=
    List.filter_eq_self.mpr (fun a ha => by simp [(hmarks a ha).2.2.1])
  have f4 : r.filter (fun it => !pyContains guardCloseMarker it) = r :=
    List.filter_eq_self.mpr (fun a ha => by simp [(hmarks a ha).2.2.2])
  have s2 : dropMarkerLines r = r := by
    unfold dropMarkerLines
    rw [f1, f2, f3, f4]
  have hemp : ¬(r.isEmpty = true) := by
    cases r with
    | nil => exact absurd rfl hrne
    | cons a t => simp
  have t1 : trimLeadingBlank r = some r := by
    unfold trimLeadingBlank
    rw [dropWhile_eq_self_of_head _ hhead, if_neg hemp]
  have t2 : trimTrailingBlank r = some r := by
    have hrev : r.reverse.dropWhile pyIsSpace = r.reverse := by
      apply dropWhile_eq_self_of_head
      rw [List.head?_reverse]
      exact hlast
    unfold trimTrailingBlank
    rw [hrev, List.reverse_reverse, if_neg hemp]
  unfold make_core_contents coreSteps14
  rw [s1, s2, t1]
  exact t2

/-- C3 amended witness: a concrete run of the conditional idempotence at
the fragment `["// a\n", "x\n", "\n"]`, whose core `["x\n"]` does not
start with a comment. -/
theorem make_core_idempotent_of_no_exposed_comment_witness :
    (make_core_contents ["// a\n", "x\n", "\n"] = some ["x\n"] ∧
      ∀ x ∈ (["x\n"] : List String).head?, isCommentLine x = false) ∧
      make_core_contents ["x\n"] = some ["x\n"] :=
  ⟨⟨by decide, by decide⟩,
    make_core_idempotent_of_no_exposed_comment ["// a\n", "x\n", "\n"]
      ["x\n"] (by decide) (by decide)⟩

/-- C4: the preamble (maximal leading comment run, line 13) concatenated
with the suffix kept by the leading-comment drop of `make_core_contents`
(line 16) is exactly the original line list. -/
theorem preample_append_rest (lines : List String) :
    preample lines ++ dropLeadingComments lines = lines :=
  List.takeWhile_append_dropWhile _ _

/-- C5: assembly places the preamble first with no separator before the
first block and exactly one blank-line separator (the line `"\n"`)
between two consecutive blocks; in particular two filtered blocks
`["a;"]` and `["b;"]` assemble to `preamble ++ ["a;", "\n", "b;"]`. -/
theorem assemble_two_blocks (p b1 b2 : List String) :
    assemble p [b1, b2] = p ++ b1 ++ ["\n"] ++ b2 ∧
      assemble p [["a;"], ["b;"]] = p ++ ["a;", "\n", "b;"] := by
  constructor
  · simp [assemble, joinBlocks, List.append_assoc]
  · simp [assemble, joinBlocks]

/-- C6: in any successful run, every filtered core is non-empty and
neither begins nor ends with a blank line, and blank-line separators are
never adjacent: any two consecutive blank lines of the assembled output
already occur consecutively inside one of the filtered cores (so none of
the seven inserted separators is adjacent to another blank line);
consequently, if no core contains adjacent blank lines internally,
neither does the whole output. -/
theorem amalgamated_no_adjacent_separators
    (fs : Files) (c1 c2 c3 c4 c5 c6 c7 c8 out : List String)
    (h1 : make_core_contents fs.csbench_h = some c1)
    (h2 : make_core_contents fs.csbench_run = some c2)
    (h3 : make_core_contents fs.csbench_analyze = some c3)
    (h4 : make_core_contents fs.csbench_report = some c4)
    (h5 : make_core_contents fs.csbench_utils = some c5)
    (h6 : make_core_contents fs.csbench_plot = some c6)
    (h7 : make_core_contents fs.csbench_perf = some c7)
    (h8 : make_core_contents fs.csbench_c = some c8)
    (hout : amalgamated_source fs = some out) :
    (∀ a b : String, [a, b] <:+: out → pyIsSpace a = true →
      pyIsSpace b = true →
      ∃ c ∈ [c1, c2, c3, c4, c5, c6, c7, c8], [a, b] <:+: c) ∧
      ((∀ c ∈ [c1, c2, c3, c4, c5, c6, c7, c8], List.Chain' noAdjBlank c) →
        List.Chain' noAdjBlank out) ∧
      ∀ c ∈ [c1, c2, c3, c4, c5, c6, c7, c8], GoodBlock c := by
  have hb := amalgamated_source_destruct h1 h2 h3 h4 h5 h6 h7 h8 hout
  have hgood : ∀ c ∈ [c1, c2, c3, c4, c5, c6, c7, c8], GoodBlock c := by
    intro c hc
    simp only [List.mem_cons, List.not_mem_nil, or_false] at hc
    rcases hc with rfl | rfl | rfl | rfl | rfl | rfl | rfl | rfl
    · exact (make_core_good h1).1
    · exact (make_core_good h2).1
    · exact (make_core_good h3).1
    · exact (make_core_good h4).1
    · exact (make_core_good h5).1
    · exact (make_core_good h6).1
    · exact (make_core_good h7).1
    · exact (make_core_good h8).1
  refine ⟨?_, ?_, hgood⟩
  · intro a b hab ha hbl
    rw [hb] at hab
    unfold assemble at hab
    rcases pair_infix_append hab with hp | hj | ⟨-, hgb⟩
    · have haP : a ∈ preample fs.csbench_h :=
        List.Sublist.mem (by simp) hp.sublist
      have hf : pyIsSpace a = false := by
        unfold preample at haP
        exact pyIsSpace_eq_false_of_comment (List.mem_takeWhile_imp haP)
      exact absurd ha (by simp [hf])
    · exact pair_infix_joinBlocks _ hgood a b hj ha hbl
    · have hnb := joinBlocks_head?_nonblank _ hgood b hgb
      exact absurd hbl (by simp [hnb])
  intro hchain
  rw [hb]
  unfold assemble
  rw [List.chain'_append]
  have hjoin := joinBlocks_chain' [c1, c2, c3, c4, c5, c6, c7, c8]
    (fun c hc => ⟨hgood c hc, hchain c hc⟩)
  refine ⟨?_, hjoin.1, ?_⟩
  · apply chain'_of_all_nonblank
    intro x hx
    unfold preample at hx
    exact pyIsSpace_eq_false_of_comment (List.mem_takeWhile_imp hx)
  · intro x hx y hy
    exact noAdjBlank_of_right (hjoin.2 y hy)

/-- C9: a line is removed from a fragment's filtered core whenever one of
the four literal markers occurs anywhere in it as a substring: every line
surviving in a successful `make_core_contents` result contains none of
the markers. -/
theorem filtered_core_marker_free
    (lines r : List String) (h : make_core_contents lines = some r) :
    ∀ x ∈ r,
      pyContains inclMarker x = false ∧
        pyContains guardOpenMarker x = false ∧
        pyContains guardDefMarker x = false ∧
        pyContains guardCloseMarker x = false :=
  fun x hx => markers_false_of_mem_coreSteps14 ((make_core_good h).2 x hx)

/-- C9 witness: the middle line contains the self-inclusion marker with
surrounding text (it is not exactly equal to the marker) and is dropped;
the surviving lines are marker-free. -/
theorem filtered_core_marker_free_witness :
    make_core_contents ["a\n", "b #include \"csbench.h\" c\n", "x\n"] =
        some ["a\n", "x\n"] ∧
      ∀ x ∈ (["a\n", "x\n"] : List String),
        pyContains inclMarker x = false ∧
          pyContains guardOpenMarker x = false ∧
          pyContains guardDefMarker x = false ∧
          pyContains guardCloseMarker x = false :=
  ⟨by decide,
    filtered_core_marker_free ["a\n", "b #include \"csbench.h\" c\n", "x\n"]
      ["a\n", "x\n"] (by decide)⟩

/-- C10: in any successful run the output is the preamble followed by the
eight filtered cores in the fixed merge order with the seven interposed
separators, it ends with the last line of the final fragment's
(`csbench.c`) filtered core, and that last line is not a blank line — in
particular no trailing separator is appended. -/
theorem amalgamated_no_trailing_separator
    (fs : Files) (c1 c2 c3 c4 c5 c6 c7 c8 out : List String)
    (h1 : make_core_contents fs.csbench_h = some c1)
    (h2 : make_core_contents fs.csbench_run = some c2)
    (h3 : make_core_contents fs.csbench_analyze = some c3)
    (h4 : make_core_contents fs.csbench_report = some c4)
    (h5 : make_core_contents fs.csbench_utils = some c5)
    (h6 : make_core_contents fs.csbench_plot = some c6)
    (h7 : make_core_contents fs.csbench_perf = some c7)
    (h8 : make_core_contents fs.csbench_c = some c8)
    (hout : amalgamated_source fs = some out) :
    out = assemble (preample fs.csbench_h) [c1, c2, c3, c4, c5, c6, c7, c8] ∧
      out.getLast? = c8.getLast? ∧
      ∀ x ∈ out.getLast?, pyIsSpace x = false := by
  have hb := amalgamated_source_destruct h1 h2 h3 h4 h5 h6 h7 h8 hout
  obtain ⟨⟨h8ne, -, h8last⟩, -⟩ := make_core_good h8
  have hj : (joinBlocks [c1, c2, c3, c4, c5, c6, c7, c8]).getLast? =
      c8.getLast? :=
    joinBlocks_getLast? [c1, c2, c3, c4, c5, c6, c7] c8 h8ne
  have hjoinne : joinBlocks [c1, c2, c3, c4, c5, c6, c7, c8] ≠ [] := by
    intro hnil
    rw [hnil] at hj
    have hs : c8.getLast?.isSome := List.getLast?_isSome.mpr h8ne
    rw [← hj] at hs
    exact absurd hs (by simp)
  refine ⟨hb, ?_, ?_⟩
  · rw [hb]
    unfold assemble
    rw [List.getLast?_append_of_ne_nil _ hjoinne]
    exact hj
  · intro x hx
    rw [hb] at hx
    unfold assemble at hx
    rw [List.getLast?_append_of_ne_nil _ hjoinne, hj] at hx
    exact h8last x hx

/-- C6 witness: a run where all eight fragments are `["x\n"]`; every core
is `["x\n"]` and the assembled output alternates content and separator
lines. -/
theorem amalgamated_no_adjacent_separators_witness :
    (make_core_contents ["x\n"] = some ["x\n"] ∧
      amalgamated_source
          ⟨["x\n"], ["x\n"], ["x\n"], ["x\n"], ["x\n"], ["x\n"], ["x\n"],
            ["x\n"]⟩ =
        some ["x\n", "\n", "x\n", "\n", "x\n", "\n", "x\n", "\n", "x\n",
          "\n", "x\n", "\n", "x\n", "\n", "x\n"]) ∧
      ((∀ a b : String,
          [a, b] <:+: ["x\n", "\n", "x\n", "\n", "x\n", "\n", "x\n", "\n",
            "x\n", "\n", "x\n", "\n", "x\n", "\n", "x\n"] →
          pyIsSpace a = true → pyIsSpace b = true →
          ∃ c ∈ [(["x\n"] : List String), ["x\n"], ["x\n"], ["x\n"],
            ["x\n"], ["x\n"], ["x\n"], ["x\n"]], [a, b] <:+: c) ∧
        ((∀ c ∈ [(["x\n"] : List String), ["x\n"], ["x\n"], ["x\n"],
            ["x\n"], ["x\n"], ["x\n"], ["x\n"]], List.Chain' noAdjBlank c) →
          List.Chain' noAdjBlank ["x\n", "\n", "x\n", "\n", "x\n", "\n",
            "x\n", "\n", "x\n", "\n", "x\n", "\n", "x\n", "\n", "x\n"]) ∧
        ∀ c ∈ [(["x\n"] : List String), ["x\n"], ["x\n"], ["x\n"], ["x\n"],
          ["x\n"], ["x\n"], ["x\n"]], GoodBlock c) :=
  ⟨⟨by decide, by decide⟩,
    amalgamated_no_adjacent_separators
      ⟨["x\n"], ["x\n"], ["x\n"], ["x\n"], ["x\n"], ["x\n"], ["x\n"],
        ["x\n"]⟩
      ["x\n"] ["x\n"] ["x\n"] ["x\n"] ["x\n"] ["x\n"] ["x\n"] ["x\n"]
      ["x\n", "\n", "x\n", "\n", "x\n", "\n", "x\n", "\n", "x\n", "\n",
        "x\n", "\n", "x\n", "\n", "x\n"]
      (by decide) (by decide) (by decide) (by decide) (by decide)
      (by decide) (by decide) (by decide) (by decide)⟩

/-- C10 witness: a run where every fragment is `["// w\n", "y\n"]`; the
output ends with the last line `"y\n"` of the `csbench.c` core, with no
separator after it. -/
theorem amalgamated_no_trailing_separator_witness :
    (make_core_contents ["// w\n", "y\n"] = some ["y\n"] ∧
      amalgamated_source
          ⟨["// w\n", "y\n"], ["// w\n", "y\n"], ["// w\n", "y\n"],
            ["// w\n", "y\n"], ["// w\n", "y\n"], ["// w\n", "y\n"],
            ["// w\n", "y\n"], ["// w\n", "y\n"]⟩ =
        some ["// w\n", "y\n", "\n", "y\n", "\n", "y\n", "\n", "y\n", "\n",
          "y\n", "\n", "y\n", "\n", "y\n", "\n", "y\n"]) ∧
      (["// w\n", "y\n", "\n", "y\n", "\n", "y\n", "\n", "y\n", "\n",
          "y\n", "\n", "y\n", "\n", "y\n", "\n", "y\n"] =
        assemble (preample ["// w\n", "y\n"])
          [["y\n"], ["y\n"], ["y\n"], ["y\n"], ["y\n"], ["y\n"], ["y\n"],
            ["y\n"]] ∧
        (["// w\n", "y\n", "\n", "y\n", "\n", "y\n", "\n", "y\n", "\n",
          "y\n", "\n", "y\n", "\n", "y\n", "\n", "y\n"] : List String).getLast? =
          (["y\n"] : List String).getLast? ∧
        ∀ x ∈ (["// w\n", "y\n", "\n", "y\n", "\n", "y\n", "\n", "y\n",
          "\n", "y\n", "\n", "y\n", "\n", "y\n", "\n",
          "y\n"] : List String).getLast?, pyIsSpace x = false) :=
  ⟨⟨by decide, by decide⟩,
    amalgamated_no_trailing_separator
      ⟨["// w\n", "y\n"], ["// w\n", "y\n"], ["// w\n", "y\n"],
        ["// w\n", "y\n"], ["// w\n", "y\n"], ["// w\n", "y\n"],
        ["// w\n", "y\n"], ["// w\n", "y\n"]⟩
      ["y\n"] ["y\n"] ["y\n"] ["y\n"] ["y\n"] ["y\n"] ["y\n"] ["y\n"]
      ["// w\n", "y\n", "\n", "y\n", "\n", "y\n", "\n", "y\n", "\n", "y\n",
        "\n", "y\n", "\n", "y\n", "\n", "y\n"]
      (by decide) (by decide) (by decide) (by decide) (by decide)
      (by decide) (by decide) (by decide) (by decide)⟩

lemma runScript_aborted {g : String → Option (List String)} {m : String}
    (hm : m ∈ file_names) (hgm : g m = none)
    (hrun : runPipeline g = Except.error (PyError.notFound m)) :
    (runScript g).1 = [] ∧
      ∃ m' ∈ file_names, g m' = none ∧
        (runScript g).2 = some (PyError.notFound m') := by
  unfold runScript
  rw [hrun]
  exact ⟨rfl, m, hm, hgm, rfl⟩

/-- C7: if any of the eight named input fragments is missing, the run
aborts with a not-found error for a missing fragment and performs no
write at all — in particular the destination artifact is neither created
nor modified, since all loads happen before the destination is opened. -/
theorem missing_fragment_aborts_before_write
    (g : String → Option (List String)) (n : String)
    (hn : n ∈ file_names) (hmiss : g n = none) :
    (runScript g).1 = [] ∧
      ∃ m ∈ file_names, g m = none ∧
        (runScript g).2 = some (PyError.notFound m) := by
  cases k1 : g "csbench.h" with
  | none =>
    exact runScript_aborted (by decide) k1
      (by simp [runPipeline, loadFiles, loadFile, Bind.bind, Except.bind, k1])
  | some v1 =>
    cases k2 : g "csbench.c" with
    | none =>
      exact runScript_aborted (by decide) k2
        (by simp [runPipeline, loadFiles, loadFile, Bind.bind, Except.bind,
          k1, k2])
    | some v2 =>
      cases k3 : g "csbench_plot.c" with
      | none =>
        exact runScript_aborted (by decide) k3
          (by simp [runPipeline, loadFiles, loadFile, Bind.bind, Except.bind,
            k1, k2, k3])
      | some v3 =>
        cases k4 : g "csbench_perf.c" with
        | none =>
          exact runScript_aborted (by decide) k4
            (by simp [runPipeline, loadFiles, loadFile, Bind.bind,
              Except.bind, k1, k2, k3, k4])
        | some v4 =>
          cases k5 : g "csbench_utils.c" with
          | none =>
            exact runScript_aborted (by decide) k5
              (by simp [runPipeline, loadFiles, loadFile, Bind.bind,
                Except.bind, k1, k2, k3, k4, k5])
          | some v5 =>
            cases k6 : g "csbench_run.c" with
            | none =>
              exact runScript_aborted (by decide) k6
                (by simp [runPipeline, loadFiles, loadFile, Bind.bind,
                  Except.bind, k1, k2, k3, k4, k5, k6])
            | some v6 =>
              cases k7 : g "csbench_report.c" with
              | none =>
                exact runScript_aborted (by decide) k7
                  (by simp [runPipeline, loadFiles, loadFile, Bind.bind,
                    Except.bind, k1, k2, k3, k4, k5, k6, k7])
              | some v7 =>
                cases k8 : g "csbench_analyze.c" with
                | none =>
                  exact runScript_aborted (by decide) k8
                    (by simp [runPipeline, loadFiles, loadFile, Bind.bind,
                      Except.bind, k1, k2, k3, k4, k5, k6, k7, k8])
                | some v8 =>
                  exfalso
                  simp only [file_names, List.mem_cons, List.not_mem_nil,
                    or_false] at hn
                  rcases hn with rfl | rfl | rfl | rfl | rfl | rfl | rfl | rfl <;>
                    simp_all

/-- C7 witness: a disk missing `csbench_run.c`; the run performs no write
and reports the missing fragment. -/
theorem missing_fragment_aborts_before_write_witness :
    ("csbench_run.c" ∈ file_names ∧
      (fun x => if x = "csbench_run.c" then none
        else some ["x\n"] : String → Option (List String)) "csbench_run.c" =
        none) ∧
      ((runScript (fun x => if x = "csbench_run.c" then none
          else some ["x\n"])).1 = [] ∧
        ∃ m ∈ file_names,
          (fun x => if x = "csbench_run.c" then none
            else some ["x\n"] : String → Option (List String)) m = none ∧
            (runScript (fun x => if x = "csbench_run.c" then none
              else some ["x\n"])).2 = some (PyError.notFound m)) :=
  ⟨⟨by decide, by decide⟩,
    missing_fragment_aborts_before_write
      (fun x => if x = "csbench_run.c" then none else some ["x\n"])
      "csbench_run.c" (by decide) (by decide)⟩

/-- C8: the run is a deterministic function of the eight fragment
contents — two disks that agree on all eight named fragments (but may
differ elsewhere) produce the identical writes and the identical error
outcome, hence byte-identical output text. -/
theorem output_determined_by_fragments
    (g1 g2 : String → Option (List String))
    (h : ∀ n ∈ file_names, g1 n = g2 n) :
    runScript g1 = runScript g2 := by
  have e1 : g1 "csbench.h" = g2 "csbench.h" := h _ (by decide)
  have e2 : g1 "csbench.c" = g2 "csbench.c" := h _ (by decide)
  have e3 : g1 "csbench_plot.c" = g2 "csbench_plot.c" := h _ (by decide)
  have e4 : g1 "csbench_perf.c" = g2 "csbench_perf.c" := h _ (by decide)
  have e5 : g1 "csbench_utils.c" = g2 "csbench_utils.c" := h _ (by decide)
  have e6 : g1 "csbench_run.c" = g2 "csbench_run.c" := h _ (by decide)
  have e7 : g1 "csbench_report.c" = g2 "csbench_report.c" := h _ (by decide)
  have e8 : g1 "csbench_analyze.c" = g2 "csbench_analyze.c" := h _ (by decide)
  have hl : loadFiles g1 = loadFiles g2 := by
    unfold loadFiles loadFile
    rw [e1, e2, e3, e4, e5, e6, e7, e8]
  unfold runScript runPipeline
  rw [hl]

/-- C8 witness: two concrete disks that agree on the eight fragment names
but differ elsewhere give equal runs. -/
theorem output_determined_by_fragments_witness :
    (∀ n ∈ file_names,
      (fun _ => some ["x\n"] : String → Option (List String)) n =
        (fun y => if y = "zzz" then none
          else some ["x\n"] : String → Option (List String)) n) ∧
      runScript (fun _ => some ["x\n"]) =
        runScript (fun y => if y = "zzz" then none else some ["x\n"]) :=
  ⟨by decide,
    output_determined_by_fragments (fun _ => some ["x\n"])
      (fun y => if y = "zzz" then none else some ["x\n"]) (by decide)⟩

end Csbench
